import Mathlib

/-! Shallow embedding of the sprout audio engine:
    src/audio/generator.py (channel canonicalization in AudioGenerator.generate,
    duration fitting, peak normalization) and src/ui/waveform.py (AudioFader,
    WaveformWidget playback session: cursor, looping audio callback, seeking).
    Audio samples are embedded as rationals (exact arithmetic); numpy/python
    exceptions are modelled by Option.none. -/

namespace Sprout

/-- Config.SAMPLE_RATE from src/config.py. -/
def SAMPLE_RATE : Nat := 32000

/-- Config.FADE_MS from src/config.py; also AudioFader's default fade_ms = 20. -/
def FADE_MS : Nat := 20

/-- Config.WAVEFORM_PADDING from src/config.py, as a rational for pixel arithmetic. -/
def WAVEFORM_PADDING : ℚ := 16

/-- fade_samples = int(Config.SAMPLE_RATE * fade_ms / 1000) in AudioFader.__init__
    (exact here, so Nat division matches Python int() of the float quotient). -/
def fade_samples (fade_ms : Nat) : Nat := SAMPLE_RATE * fade_ms / 1000

/-- Number of columns of a 2-D array (numpy shape[1]; 0 if there are no rows). -/
def ncols (m : List (List ℚ)) : Nat :=
  match m with
  | [] => 0
  | r :: _ => r.length

/-- Rectangularity: every row has the common column count, as numpy arrays guarantee. -/
def Rect (m : List (List ℚ)) : Prop := ∀ r ∈ m, r.length = ncols m

instance (m : List (List ℚ)) : Decidable (Rect m) :=
  inferInstanceAs (Decidable (∀ r ∈ m, r.length = ncols m))

/-- numpy transpose of a rectangular 2-D array. -/
def transposeR (m : List (List ℚ)) : List (List ℚ) :=
  (List.range (ncols m)).map (fun j => m.map (fun r => r.getD j 0))

/-- numpy column slice a[:, p:p+k]. -/
def sliceCols (m : List (List ℚ)) (p k : Nat) : List (List ℚ) :=
  m.map (fun r => (r.drop p).take k)

/-- np.linspace(0, 1, n). -/
def linspace01 (n : Nat) : List ℚ :=
  (List.range n).map (fun i => if n ≤ 1 then 0 else (i : ℚ) / ((n : ℚ) - 1))

/-- np.linspace(1, 0, n). -/
def linspace10 (n : Nat) : List ℚ :=
  (List.range n).map (fun i => if n ≤ 1 then 1 else 1 - (i : ℚ) / ((n : ℚ) - 1))

/-- AudioFader.apply_fade_in.  Note the guard is `len(audio_data) < fade_samples`
    and `len` of a 2-D numpy array is its leading-axis (channel) length. -/
def apply_fade_in (fs : Nat) (m : List (List ℚ)) : List (List ℚ) :=
  if m.length < fs then m
  else m.map (fun r => List.zipWith (fun c x => c * x) (linspace01 fs) (r.take fs) ++ r.drop fs)

/-- AudioFader.apply_fade_out; `audio_data[:, -fs:] *= fade` multiplies the last
    fs entries of each row (the whole row when the row is shorter than fs,
    matching Python negative-index slicing). -/
def apply_fade_out (fs : Nat) (m : List (List ℚ)) : List (List ℚ) :=
  if m.length < fs then m
  else m.map (fun r =>
    r.take (r.length - fs) ++ List.zipWith (fun c x => c * x) (linspace10 fs) (r.drop (r.length - fs)))

/-- Raw model output handed to the channel-shape handling in
    AudioGenerator.generate (lines 115-140): rank 1, 2 or 3. -/
inductive NDArray where
  | r1 : List ℚ → NDArray
  | r2 : List (List ℚ) → NDArray
  | r3 : List (List (List ℚ)) → NDArray

/-- Lines 134-140 of generator.py: if the row count is not 2, duplicate row 0
    into both channels (IndexError, i.e. none, when there is no row 0). -/
def dupFix (m1 : List (List ℚ)) : Option (List (List ℚ)) :=
  if m1.length = 2 then some m1
  else
    match m1 with
    | [] => none
    | r :: _ => some [r, r]

/-- Lines 125-140 of generator.py for a rank-2 array: transpose when the leading
    axis exceeds 2, keep the first two rows if still more than 2, then apply the
    duplicate-row-0 fixup. -/
def canonChannels (m : List (List ℚ)) : Option (List (List ℚ)) :=
  dupFix (if 2 < m.length then
      (let mt := transposeR m
       if 2 < mt.length then mt.take 2 else mt)
    else m)

/-- Lines 115-140 of generator.py: squeeze(0) on rank 3 (raises unless the batch
    axis is a singleton), np.stack([v, v]) on rank 1, channel handling on rank 2. -/
def canonicalize (t : NDArray) : Option (List (List ℚ)) :=
  match t with
  | NDArray.r1 v => some [v, v]
  | NDArray.r2 m => canonChannels m
  | NDArray.r3 l =>
    match l with
    | [m] => canonChannels m
    | _ => none

/-- np.max(np.abs(m)) over all entries, with seed 0 (meaningful when m has an
    entry; np.max of an empty array raises, which callers model via hasEntry). -/
def absPeak (m : List (List ℚ)) : ℚ :=
  (m.map (fun r => (r.map (fun x => |x|)).foldr max 0)).foldr max 0

/-- Whether np.max sees at least one element (np.max of a zero-size array raises). -/
def hasEntry (m : List (List ℚ)) : Bool := m.any (fun r => !r.isEmpty)

/-- AudioGenerator.normalize_audio: peak-scale by 0.9/peak when peak > 0, pass
    through otherwise; none models the ValueError np.max raises on an empty array. -/
def normalize_audio (m : List (List ℚ)) : Option (List (List ℚ)) :=
  if hasEntry m then
    (if 0 < absPeak m then
      some (m.map (fun r => r.map (fun x => x / absPeak m * (9 / 10))))
    else some m)
  else none

/-- Duration fitting, lines 142-153 of generator.py: trim to the prefix when too
    long, right-pad both channels with zeros when too short. -/
def fit_duration (target : Nat) (m : List (List ℚ)) : List (List ℚ) :=
  if target < ncols m then m.map (fun r => r.take target)
  else if ncols m < target then m.map (fun r => r ++ List.replicate (target - ncols m) 0)
  else m

/-- Playback-relevant state of WaveformWidget: audio_data, playhead_position,
    is_playing, is_looping, and whether an output stream object is held. -/
structure Session where
  audio : Option (List (List ℚ))
  cursor : Nat
  playing : Bool
  looping : Bool
  stream : Bool
deriving DecidableEq

/-- WaveformWidget.stop_playback: when playing, clear is_playing and close/drop
    the stream; every other field is untouched. -/
def stop_playback (s : Session) : Session :=
  if s.playing then { s with playing := false, stream := false } else s

/-- WaveformWidget.set_audio_data: stop playback, install the new buffer, reset
    playhead_position to 0. -/
def set_audio_data (a : Option (List (List ℚ))) (s : Session) : Session :=
  { stop_playback s with audio := a, cursor := 0 }

/-- WaveformWidget.play_audio with the outcome of opening/starting the output
    stream abstracted as deviceOk; on failure the except-branch runs
    stop_playback (is_playing had just been set True). -/
def play_audio (deviceOk : Bool) (s : Session) : Session :=
  if s.audio.isSome && !s.playing then
    (if deviceOk then { s with playing := true, stream := true }
     else stop_playback { s with playing := true })
  else s

/-- The clamp of x_relative into [0, width] in seek_to_position. -/
def clampTo (w x : ℚ) : ℚ := if x < 0 then 0 else if w < x then w else x

/-- Python int() applied to a rational: truncation toward zero. -/
def pyInt (q : ℚ) : Int := if q < 0 then Int.ceil q else Int.floor q

/-- The pure seek mapping of seek_to_position: clamp the drawable-relative x to
    [0, w], then int((x / w) * L). -/
def seekIndex (w : ℚ) (L : Nat) (x : ℚ) : Int := pyInt (clampTo w x / w * (L : ℚ))

/-- WaveformWidget.seek_to_position: no-op without a buffer; otherwise map the
    pointer x through padding, clamp and the ratio to a sample index
    (len(mono_data) equals the per-channel sample count ncols). -/
def seek_to_position (widgetW x : ℚ) (s : Session) : Session :=
  match s.audio with
  | none => s
  | some a =>
    { s with cursor :=
        (seekIndex (widgetW - 2 * WAVEFORM_PADDING) (ncols a) (x - WAVEFORM_PADDING)).toNat }

/-- WaveformWidget.get_current_audio_chunk: slice [cursor, min(cursor+frames, L)),
    fade in when the cursor is at 0, fade out when the slice reaches the end. -/
def get_current_audio_chunk (s : Session) (frames : Nat) : Option (List (List ℚ)) :=
  match s.audio with
  | none => none
  | some a =>
    let endPos := min (s.cursor + frames) (ncols a)
    let data := sliceCols a s.cursor (endPos - s.cursor)
    let d1 := if s.cursor = 0 then apply_fade_in (fade_samples FADE_MS) data else data
    some (if endPos = ncols a then apply_fade_out (fade_samples FADE_MS) d1 else d1)

/-- WaveformWidget.audio_callback.  Returns the successor state and the frames
    written to outdata (rows of data.T).  The assignment
    `outdata[k:] = additional_data.T` succeeds when the wrap fetch's width
    equals the shortfall, and also when that width is 1: numpy broadcasts the
    single (1, 2) frame across the remaining rows, so the callback completes
    with the single frame replicated.  Any other width mismatch raises a
    ValueError, modelled as none. -/
def audio_callback (frames : Nat) (s : Session) : Option (Session × List (List ℚ)) :=
  match s.audio with
  | none => some (s, [])
  | some a =>
    if s.playing then
      match get_current_audio_chunk s frames with
      | none => none
      | some data =>
        if ncols data < frames then
          (if s.looping then
            (match get_current_audio_chunk { s with cursor := 0 } (frames - ncols data) with
             | none => none
             | some additional =>
               if ncols additional = frames - ncols data then
                 some ({ s with cursor := frames - ncols data },
                       transposeR data ++ transposeR additional)
               else if ncols additional = 1 then
                 some ({ s with cursor := frames - ncols data },
                       transposeR data ++
                         List.replicate (frames - ncols data) ((transposeR additional).headD []))
               else none)
          else
            some (stop_playback s,
                  transposeR data ++ List.replicate (frames - ncols data) (List.replicate a.length 0)))
        else
          some ({ s with cursor := s.cursor + frames }, transposeR data)
    else some (s, [])

/-- Buffer length visible to the session (0 when no buffer is loaded). -/
def sessionLen (s : Session) : Nat :=
  match s.audio with
  | none => 0
  | some a => ncols a

/-- The cursor invariant of the spec: 0 <= cursor <= buffer.length. -/
def SessionInv (s : Session) : Prop := s.cursor ≤ sessionLen s

instance (s : Session) : Decidable (SessionInv s) :=
  inferInstanceAs (Decidable (s.cursor ≤ sessionLen s))

/-- Well-formedness of a loaded buffer: exactly 2 channels, rectangular. -/
def sessionWF (s : Session) : Bool :=
  match s.audio with
  | none => true
  | some a => a.length == 2 && decide (Rect a)

/-- The audio callback preserves the cursor invariant whenever it completes. -/
def callbackKeeps (frames : Nat) (s : Session) : Bool :=
  match audio_callback frames s with
  | none => true
  | some r => decide (SessionInv r.1)

/-- Inputs on which the canonicalizer completes: rank 1 always; rank 2 with a
    nonempty leading axis (and a nonzero sample axis when there are more than 2
    rows); rank 3 only with a singleton batch whose content satisfies the same. -/
def canonOK : NDArray → Bool
  | NDArray.r1 _ => true
  | NDArray.r2 m =>
      !m.isEmpty && decide (Rect m) && (decide (m.length ≤ 2) || !(ncols m == 0))
  | NDArray.r3 l =>
    match l with
    | [m] => !m.isEmpty && decide (Rect m) && (decide (m.length ≤ 2) || !(ncols m == 0))
    | _ => false

/-- A 2-by-640 all-ones stereo buffer: long enough for the 640-sample fade. -/
def onesBuf : List (List ℚ) := [List.replicate 640 1, List.replicate 640 1]

/-- A looping playback session over a 4-sample stereo buffer with the cursor at 2. -/
def loopSession : Session :=
  { audio := some [[1, 2, 3, 4], [5, 6, 7, 8]], cursor := 2,
    playing := true, looping := true, stream := true }

/-- The same looping session with the cursor at 3, one sample before the end. -/
def loopSession3 : Session :=
  { audio := some [[1, 2, 3, 4], [5, 6, 7, 8]], cursor := 3,
    playing := true, looping := true, stream := true }

/-- A looping session over a 1-sample-per-channel stereo buffer with the cursor
    at the buffer end: the state in which the wrap fetch yields a single column. -/
def tinySession : Session :=
  { audio := some [[5], [7]], cursor := 1, playing := true, looping := true, stream := true }

/-- An idle session holding a 1-sample stereo buffer, cursor away from 0. -/
def idleSession : Session :=
  { audio := some [[1], [1]], cursor := 3, playing := false,
    looping := true, stream := false }

/-- A session with no buffer loaded. -/
def emptySession : Session :=
  { audio := none, cursor := 0, playing := false, looping := true, stream := false }

/-! Helper lemmas. -/

theorem fade_in_id (fs : Nat) (m : List (List ℚ)) (h : m.length < fs) :
    apply_fade_in fs m = m := by
  simp [apply_fade_in, h]

theorem fade_out_id (fs : Nat) (m : List (List ℚ)) (h : m.length < fs) :
    apply_fade_out fs m = m := by
  simp [apply_fade_out, h]

theorem length_transposeR (m : List (List ℚ)) : (transposeR m).length = ncols m := by
  simp [transposeR]

theorem length_mem_transposeR (m : List (List ℚ)) (r : List ℚ) (h : r ∈ transposeR m) :
    r.length = m.length := by
  simp only [transposeR, List.mem_map, List.mem_range] at h
  obtain ⟨j, hj, rfl⟩ := h
  simp

theorem length_sliceCols (a : List (List ℚ)) (p k : Nat) :
    (sliceCols a p k).length = a.length := by
  simp [sliceCols]

theorem ncols_sliceCols (a : List (List ℚ)) (p k : Nat) (ha : a ≠ []) :
    ncols (sliceCols a p k) = min k (ncols a - p) := by
  cases a with
  | nil => exact absurd rfl ha
  | cons r t => simp [sliceCols, ncols]

theorem ncols_eq_of_rows (o : List (List ℚ)) (c : Nat) (hne : o ≠ [])
    (h : ∀ r ∈ o, r.length = c) : ncols o = c := by
  cases o with
  | nil => exact absurd rfl hne
  | cons r t => exact h r (List.mem_cons_self r t)

theorem chunk_eq (s : Session) (a : List (List ℚ)) (F : Nat)
    (ha : s.audio = some a) (h2 : a.length = 2) :
    get_current_audio_chunk s F =
      some (sliceCols a s.cursor (min (s.cursor + F) (ncols a) - s.cursor)) := by
  have hfs : (2 : Nat) < fade_samples FADE_MS := by decide
  have hlen : (sliceCols a s.cursor (min (s.cursor + F) (ncols a) - s.cursor)).length
      < fade_samples FADE_MS := by
    rw [length_sliceCols, h2]; exact hfs
  simp only [get_current_audio_chunk, ha, fade_in_id _ _ hlen, fade_out_id _ _ hlen, ite_self]

theorem clampTo_eq_max_min (w x : ℚ) (hw : 0 ≤ w) : clampTo w x = max 0 (min x w) := by
  unfold clampTo
  split_ifs with h1 h2
  · rw [min_eq_left (le_trans h1.le hw), max_eq_left h1.le]
  · rw [min_eq_right h2.le, max_eq_right hw]
  · push_neg at h1 h2
    rw [min_eq_left h2, max_eq_right h1]

theorem clampTo_nonneg (w x : ℚ) (hw : 0 ≤ w) : 0 ≤ clampTo w x := by
  unfold clampTo
  split_ifs with h1 h2
  · exact le_refl 0
  · exact hw
  · exact not_lt.mp h1

theorem clampTo_le (w x : ℚ) (hw : 0 ≤ w) : clampTo w x ≤ w := by
  unfold clampTo
  split_ifs with h1 h2
  · exact hw
  · exact le_refl w
  · exact not_lt.mp h2

theorem pyInt_of_nonneg (q : ℚ) (h : 0 ≤ q) : pyInt q = Int.floor q := by
  unfold pyInt
  rw [if_neg (not_lt.mpr h)]

theorem seekIndex_arg_nonneg (w : ℚ) (L : Nat) (x : ℚ) (hw : 0 < w) :
    0 ≤ clampTo w x / w * (L : ℚ) :=
  mul_nonneg (div_nonneg (clampTo_nonneg w x hw.le) hw.le) (Nat.cast_nonneg L)

theorem seekIndex_nonneg (w : ℚ) (L : Nat) (x : ℚ) (hw : 0 < w) : 0 ≤ seekIndex w L x := by
  rw [seekIndex, pyInt_of_nonneg _ (seekIndex_arg_nonneg w L x hw)]
  exact Int.le_floor.mpr (by exact_mod_cast seekIndex_arg_nonneg w L x hw)

theorem seekIndex_le (w : ℚ) (L : Nat) (x : ℚ) (hw : 0 < w) : seekIndex w L x ≤ (L : Int) := by
  have h1 : clampTo w x / w ≤ 1 := (div_le_one hw).mpr (clampTo_le w x hw.le)
  have hq : clampTo w x / w * (L : ℚ) ≤ (L : ℚ) := by
    calc clampTo w x / w * (L : ℚ) ≤ 1 * (L : ℚ) :=
          mul_le_mul_of_nonneg_right h1 (Nat.cast_nonneg L)
      _ = (L : ℚ) := one_mul _
  rw [seekIndex, pyInt_of_nonneg _ (seekIndex_arg_nonneg w L x hw)]
  calc Int.floor (clampTo w x / w * (L : ℚ)) ≤ Int.floor ((L : ℚ)) := Int.floor_mono hq
    _ = (L : Int) := Int.floor_natCast L

/-! Claim theorems. -/

/-- Claim C1 (code bug): the fade guard compares len(audio_data), which for a
    stereo (2, N) buffer is the channel count 2, against fade_samples = 640, so
    apply_fade_in and apply_fade_out return every stereo buffer unmodified, even
    one that is exactly fade_samples long where the claim requires a 0-to-1
    (resp. 1-to-0) linear ramp over the first (last) 640 samples per channel. -/
theorem fade_guard_never_fires :
    fade_samples FADE_MS = 640 ∧ onesBuf.length = 2 ∧ ncols onesBuf = 640 ∧
    apply_fade_in (fade_samples FADE_MS) onesBuf = onesBuf ∧
    apply_fade_out (fade_samples FADE_MS) onesBuf = onesBuf := by
  have h2 : onesBuf.length = 2 := rfl
  have hlt : onesBuf.length < fade_samples FADE_MS := by rw [h2]; decide
  have hcols : ncols onesBuf = 640 := by
    have h0 : ncols onesBuf = (List.replicate 640 (1 : ℚ)).length := rfl
    rw [h0, List.length_replicate]
  exact ⟨by decide, h2, hcols, fade_in_id _ _ hlt, fade_out_id _ _ hlt⟩

/-- Claim C7: stop_playback preserves cursor, buffer and loop flag, clearing only
    is_playing (and releasing the stream resource), while set_audio_data resets
    the cursor to 0 and installs the new buffer. -/
theorem stop_preserves_cursor_set_resets (s : Session) (a : Option (List (List ℚ))) :
    (stop_playback s).cursor = s.cursor ∧ (stop_playback s).audio = s.audio ∧
    (stop_playback s).looping = s.looping ∧ (stop_playback s).playing = false ∧
    (set_audio_data a s).cursor = 0 ∧ (set_audio_data a s).audio = a := by
  unfold set_audio_data stop_playback
  split_ifs with h <;> simp_all

/-- Claim C9: when opening or starting the output stream fails, play_audio lands
    back in the idle state (is_playing false, stream closed) with the cursor and
    buffer untouched, making a single attempt; seeking with no buffer loaded is
    a no-op. -/
theorem play_failure_reverts_idle (s t : Session) (a : List (List ℚ)) (w x : ℚ)
    (ha : s.audio = some a) (hs : s.playing = false) (ht : t.audio = none) :
    (play_audio false s).playing = false ∧ (play_audio false s).stream = false ∧
    (play_audio false s).cursor = s.cursor ∧ (play_audio false s).audio = s.audio ∧
    seek_to_position w x t = t := by
  unfold play_audio stop_playback
  simp [ha, hs, seek_to_position, ht]

theorem play_failure_reverts_idle_witness :
    (play_audio false idleSession).playing = false ∧
    (play_audio false idleSession).stream = false ∧
    (play_audio false idleSession).cursor = idleSession.cursor ∧
    (play_audio false idleSession).audio = idleSession.audio ∧
    seek_to_position 100 20 emptySession = emptySession :=
  play_failure_reverts_idle idleSession emptySession [[1], [1]] 100 20 rfl rfl rfl

/-- Claim C6 counterexample: at drawable width 2, buffer length 3 and (relative)
    pointer x = 1 the code stores int(1.5) = 1 while the claimed round(1.5) is 2. -/
theorem seekIndex_round_counterexample :
    seekIndex 2 3 1 = 1 ∧ round ((1 : ℚ) / 2 * 3) = 2 ∧
    seekIndex 2 3 1 ≠ round ((1 : ℚ) / 2 * 3) := by
  have h1 : seekIndex 2 3 1 = 1 := by
    rw [seekIndex]
    have hc : clampTo 2 1 = 1 := by norm_num [clampTo]
    rw [hc, pyInt_of_nonneg _ (by positivity)]
    rw [show (1 : ℚ) / 2 * ((3 : Nat) : ℚ) = 3 / 2 by push_cast; ring]
    rw [Int.floor_eq_iff]
    norm_num
  have h2 : round ((1 : ℚ) / 2 * 3) = 2 := by
    rw [round_eq, show (1 : ℚ) / 2 * 3 + 1 / 2 = ((2 : ℤ) : ℚ) by norm_num,
      Int.floor_intCast]
  exact ⟨h1, h2, by rw [h1, h2]; omega⟩

/-- Claim C6 (amended): seeking clamps the drawable-relative pointer coordinate
    to [0, W] and sets the cursor to the truncation (floor, not round) of
    (x / W) * L; the result is a pure function of x, W and L, and lies in [0, L]. -/
theorem seekIndex_floor_clamp (w : ℚ) (L : Nat) (x : ℚ) (hw : 0 < w) :
    seekIndex w L x = Int.floor (max 0 (min x w) / w * (L : ℚ)) ∧
    0 ≤ seekIndex w L x ∧ seekIndex w L x ≤ (L : Int) := by
  refine ⟨?_, seekIndex_nonneg w L x hw, seekIndex_le w L x hw⟩
  rw [seekIndex, pyInt_of_nonneg _ (seekIndex_arg_nonneg w L x hw),
    clampTo_eq_max_min w x hw.le]

theorem seekIndex_floor_clamp_witness :
    seekIndex 2 3 1 = Int.floor (max 0 (min (1 : ℚ) 2) / 2 * ((3 : Nat) : ℚ)) ∧
    0 ≤ seekIndex 2 3 1 ∧ seekIndex 2 3 1 ≤ ((3 : Nat) : Int) :=
  seekIndex_floor_clamp 2 3 1 (by norm_num)

/-- Claim C5: the duration fitter returns, on each of the 2 channels, the prefix
    of the input truncated to target followed by exactly the missing number of
    zero samples, and every output channel has length exactly target; in
    particular trimming keeps the prefix, padding appends only zeros, and an
    input of matching length passes through (its take is itself, its padding
    empty). -/
theorem fit_duration_exact (target : Nat) (m : List (List ℚ))
    (_h2 : m.length = 2) (hr : Rect m) :
    fit_duration target m =
      m.map (fun r => r.take target ++ List.replicate (target - ncols m) 0) ∧
    ∀ r ∈ fit_duration target m, r.length = target := by
  have key : fit_duration target m =
      m.map (fun r => r.take target ++ List.replicate (target - ncols m) 0) := by
    unfold fit_duration
    rcases Nat.lt_trichotomy target (ncols m) with h | h | h
    · rw [if_pos h, Nat.sub_eq_zero_of_le h.le]
      simp
    · rw [if_neg (by omega), if_neg (by omega)]
      have hrow : ∀ r ∈ m, r.take target ++ List.replicate (target - ncols m) 0 = r := by
        intro r hrm
        have hl : r.length = target := by rw [hr r hrm]; omega
        rw [Nat.sub_eq_zero_of_le (le_of_eq h), List.replicate_zero, List.append_nil,
          ← hl, List.take_length]
      calc m = m.map (fun r => r) := (List.map_id' m).symm
        _ = m.map (fun r => r.take target ++ List.replicate (target - ncols m) 0) :=
          (List.map_congr_left (fun r hrm => (hrow r hrm).symm))
    · rw [if_neg (by omega), if_pos h]
      refine List.map_congr_left fun r hrm => ?_
      have hl : r.length = ncols m := hr r hrm
      rw [List.take_of_length_le (by omega)]
  refine ⟨key, fun r hrm => ?_⟩
  rw [key] at hrm
  simp only [List.mem_map] at hrm
  obtain ⟨r0, hr0, rfl⟩ := hrm
  have := hr r0 hr0
  simp only [List.length_append, List.length_take, List.length_replicate]
  omega

theorem fit_duration_exact_witness :
    fit_duration 3 [[(1 : ℚ), 2], [3, 4]] =
      [[(1 : ℚ), 2], [3, 4]].map
        (fun r => r.take 3 ++ List.replicate (3 - ncols [[(1 : ℚ), 2], [3, 4]]) 0) ∧
    ∀ r ∈ fit_duration 3 [[(1 : ℚ), 2], [3, 4]], r.length = 3 :=
  fit_duration_exact 3 [[(1 : ℚ), 2], [3, 4]] (by decide) (by decide)

theorem canonOK_fields (m : List (List ℚ))
    (h : (!m.isEmpty && decide (Rect m) && (decide (m.length ≤ 2) || !(ncols m == 0))) = true) :
    m ≠ [] ∧ Rect m ∧ (2 < m.length → ncols m ≠ 0) := by
  simp only [Bool.and_eq_true, Bool.or_eq_true, Bool.not_eq_true', decide_eq_true_eq,
    beq_eq_false_iff_ne] at h
  obtain ⟨⟨hne, hr⟩, hor⟩ := h
  refine ⟨?_, hr, fun hgt => hor.resolve_left (by omega)⟩
  intro hcontra
  subst hcontra
  simp at hne

theorem dupFix_wf (m1 : List (List ℚ)) (c : Nat) (hne : m1 ≠ [])
    (hrows : ∀ r ∈ m1, r.length = c) :
    ∃ out, dupFix m1 = some out ∧ out.length = 2 ∧ ∀ r ∈ out, r.length = ncols out := by
  cases m1 with
  | nil => exact absurd rfl hne
  | cons r t =>
    unfold dupFix
    by_cases h2 : (r :: t).length = 2
    · rw [if_pos h2]
      refine ⟨r :: t, rfl, h2, fun r1 h1 => ?_⟩
      rw [ncols_eq_of_rows (r :: t) c (List.cons_ne_nil r t) hrows]
      exact hrows r1 h1
    · rw [if_neg h2]
      refine ⟨[r, r], rfl, rfl, fun r1 h1 => ?_⟩
      rcases List.mem_pair.mp h1 with h | h <;> subst h <;> rfl

/-- Claim C3 counterexample: a rank-3 tensor with batch size 2 makes squeeze(0)
    raise (modelled as none), and a rank-2 array with an empty leading axis hits
    an IndexError in the duplicate-row-0 fixup, so canonicalization can raise. -/
theorem canonicalize_raises_on_batched :
    canonicalize (NDArray.r3 [[[1]], [[1]]]) = none ∧
    canonicalize (NDArray.r2 []) = none :=
  ⟨rfl, rfl⟩

/-- Claim C3 (amended): on rank-1 input, on rank-2 (rectangular) input with a
    nonempty leading axis whose sample axis is nonzero whenever there are more
    than 2 rows, and on rank-3 input with a singleton batch axis around such an
    array, canonicalization completes and returns exactly 2 channels of equal
    per-channel length. -/
theorem canonicalize_output_stereo (t : NDArray) (h : canonOK t = true) :
    ∃ out, canonicalize t = some out ∧ out.length = 2 ∧
      ∀ r ∈ out, r.length = ncols out := by
  have main : ∀ m : List (List ℚ), m ≠ [] → Rect m → (2 < m.length → ncols m ≠ 0) →
      ∃ out, canonChannels m = some out ∧ out.length = 2 ∧
        ∀ r ∈ out, r.length = ncols out := by
    intro m hne hr hcols
    unfold canonChannels
    by_cases hlen : 2 < m.length
    · rw [if_pos hlen]
      have hnz : ncols m ≠ 0 := hcols hlen
      have hmt : (transposeR m).length = ncols m := length_transposeR m
      by_cases hbig : 2 < (transposeR m).length
      · rw [if_pos hbig]
        refine dupFix_wf _ m.length ?_ ?_
        · have : ((transposeR m).take 2).length = 2 := by
            rw [List.length_take]; omega
          intro hcontra
          rw [hcontra] at this
          exact absurd this (by decide)
        · intro r hrm
          exact length_mem_transposeR m r (List.mem_of_mem_take hrm)
      · rw [if_neg hbig]
        refine dupFix_wf _ m.length ?_ (fun r hrm => length_mem_transposeR m r hrm)
        intro hcontra
        rw [hcontra] at hmt
        exact hnz hmt.symm
    · rw [if_neg hlen]
      exact dupFix_wf m (ncols m) hne hr
  cases t with
  | r1 v => exact ⟨[v, v], rfl, rfl, fun r h1 => by
      rcases List.mem_pair.mp h1 with h | h <;> subst h <;> rfl⟩
  | r2 m =>
    simp only [canonOK] at h
    obtain ⟨hne, hr, hcols⟩ := canonOK_fields m h
    exact main m hne hr hcols
  | r3 l =>
    cases l with
    | nil => simp [canonOK] at h
    | cons m rest =>
      cases rest with
      | nil =>
        simp only [canonOK] at h
        obtain ⟨hne, hr, hcols⟩ := canonOK_fields m h
        exact main m hne hr hcols
      | cons _ _ => simp [canonOK] at h

theorem canonicalize_output_stereo_witness :
    ∃ out, canonicalize (NDArray.r2 [[(1 : ℚ), 2], [3, 4], [5, 6]]) = some out ∧
      out.length = 2 ∧ ∀ r ∈ out, r.length = ncols out :=
  canonicalize_output_stereo (NDArray.r2 [[(1 : ℚ), 2], [3, 4], [5, 6]]) (by decide)

theorem foldr_max_nonneg (l : List ℚ) : 0 ≤ l.foldr max 0 := by
  induction l with
  | nil => exact le_refl 0
  | cons a t ih => exact le_max_of_le_right ih

theorem foldr_max_le (l : List ℚ) (c : ℚ) (hc : 0 ≤ c) (h : ∀ x ∈ l, x ≤ c) :
    l.foldr max 0 ≤ c := by
  induction l with
  | nil => exact hc
  | cons a t ih =>
    exact max_le (h a (List.mem_cons_self a t)) (ih fun x hx => h x (List.mem_cons_of_mem a hx))

theorem foldr_max_map_mul (l : List ℚ) (c : ℚ) (hc : 0 ≤ c) :
    (l.map (fun x => x * c)).foldr max 0 = l.foldr max 0 * c := by
  induction l with
  | nil => simp
  | cons a t ih =>
    simp only [List.map_cons, List.foldr_cons, ih]
    exact (max_mul_of_nonneg a (t.foldr max 0) hc).symm

theorem absPeak_nonneg (m : List (List ℚ)) : 0 ≤ absPeak m :=
  foldr_max_nonneg _

theorem absPeak_scale (m : List (List ℚ)) (c : ℚ) (hc : 0 ≤ c) :
    absPeak (m.map (fun r => r.map (fun x => x * c))) = absPeak m * c := by
  have hrow : ∀ r : List ℚ,
      ((r.map (fun x => x * c)).map (fun x => |x|)).foldr max 0 =
        ((r.map (fun x => |x|)).foldr max 0) * c := by
    intro r
    rw [← foldr_max_map_mul (r.map fun x => |x|) c hc, List.map_map, List.map_map]
    refine congrArg (List.foldr max 0) ?_
    apply List.map_congr_left
    intro x _
    show |x * c| = |x| * c
    rw [abs_mul, abs_of_nonneg hc]
  unfold absPeak
  rw [← foldr_max_map_mul (m.map fun r => (r.map fun x => |x|).foldr max 0) c hc,
    List.map_map, List.map_map]
  refine congrArg (List.foldr max 0) ?_
  apply List.map_congr_left
  intro r _
  exact hrow r

theorem absPeak_all_zero (m : List (List ℚ)) (h : ∀ r ∈ m, ∀ x ∈ r, x = 0) :
    absPeak m = 0 := by
  refine le_antisymm ?_ (absPeak_nonneg m)
  refine foldr_max_le _ 0 (le_refl 0) ?_
  intro p hp
  simp only [List.mem_map] at hp
  obtain ⟨r, hr, rfl⟩ := hp
  refine foldr_max_le _ 0 (le_refl 0) ?_
  intro y hy
  simp only [List.mem_map] at hy
  obtain ⟨x, hx, rfl⟩ := hy
  rw [h r hr x hx]
  simp

theorem normalize_body_eq (m : List (List ℚ)) (p : ℚ) :
    m.map (fun r => r.map (fun x => x / p * (9 / 10))) =
      m.map (fun r => r.map (fun x => x * (9 / 10 / p))) := by
  have hfn : (fun x : ℚ => x / p * (9 / 10)) = fun x : ℚ => x * (9 / 10 / p) := by
    funext x
    ring
  rw [hfn]

theorem hasEntry_map (f : ℚ → ℚ) (m : List (List ℚ)) :
    hasEntry (m.map (fun r => r.map f)) = hasEntry m := by
  unfold hasEntry
  induction m with
  | nil => rfl
  | cons r t ih =>
    simp only [List.map_cons, List.any_cons, ih]
    congr 1
    cases r <;> rfl

/-- Claim C4 counterexample: on the empty 2-by-0 buffer (an all-zero buffer with
    no samples) np.max raises instead of returning the buffer unchanged. -/
theorem normalize_audio_empty_counterexample :
    normalize_audio [[], []] = none ∧
    normalize_audio [[], []] ≠ some [[], []] := by
  constructor
  · rfl
  · intro h
    exact Option.noConfusion h

/-- Claim C4 (amended): for every buffer with at least one sample, if the peak
    absolute amplitude is strictly positive the normalizer scales every sample
    by 0.9 divided by that peak and the output peak is exactly 9/10 in rational
    arithmetic; if every sample is zero the buffer passes through unchanged.
    (On a zero-sample buffer np.max raises, see the counterexample.) -/
theorem normalize_audio_peak (m : List (List ℚ)) (hne : hasEntry m = true) :
    (0 < absPeak m →
      normalize_audio m = some (m.map (fun r => r.map (fun x => x * (9 / 10 / absPeak m)))) ∧
      (normalize_audio m).map absPeak = some (9 / 10)) ∧
    ((∀ r ∈ m, ∀ x ∈ r, x = 0) → normalize_audio m = some m) := by
  constructor
  · intro hp
    have heq : normalize_audio m =
        some (m.map (fun r => r.map (fun x => x * (9 / 10 / absPeak m)))) := by
      unfold normalize_audio
      rw [if_pos hne, if_pos hp, normalize_body_eq]
    refine ⟨heq, ?_⟩
    rw [heq]
    have hsc : absPeak (m.map (fun r => r.map (fun x => x * (9 / 10 / absPeak m)))) = 9 / 10 := by
      rw [absPeak_scale m (9 / 10 / absPeak m) (div_nonneg (by norm_num) (absPeak_nonneg m)),
        mul_comm, div_mul_cancel₀ _ (ne_of_gt hp)]
    simp only [Option.map_some', hsc]
  · intro hz
    unfold normalize_audio
    rw [if_pos hne, if_neg]
    rw [absPeak_all_zero m hz]
    exact lt_irrefl 0

theorem normalize_audio_peak_witness :
    (0 < absPeak [[(1 : ℚ), -2], [0, 1]] →
      normalize_audio [[(1 : ℚ), -2], [0, 1]] =
        some ([[(1 : ℚ), -2], [0, 1]].map
          (fun r => r.map (fun x => x * (9 / 10 / absPeak [[(1 : ℚ), -2], [0, 1]])))) ∧
      (normalize_audio [[(1 : ℚ), -2], [0, 1]]).map absPeak = some (9 / 10)) ∧
    ((∀ r ∈ [[(1 : ℚ), -2], [0, 1]], ∀ x ∈ r, x = 0) →
      normalize_audio [[(1 : ℚ), -2], [0, 1]] = some [[(1 : ℚ), -2], [0, 1]]) :=
  normalize_audio_peak [[(1 : ℚ), -2], [0, 1]] (by decide)

/-- Claim C10: level normalization is idempotent in exact arithmetic: composing
    normalize_audio with itself (propagating the empty-buffer failure
    monadically) gives normalize_audio itself; a non-silent normalized buffer
    has peak exactly 9/10, so the second pass scales by 1, and a silent buffer
    passes through both times. -/
theorem normalize_audio_idempotent (m : List (List ℚ)) :
    (normalize_audio m).bind normalize_audio = normalize_audio m := by
  by_cases hne : hasEntry m = true
  · by_cases hp : 0 < absPeak m
    · have heq : normalize_audio m =
          some (m.map (fun r => r.map (fun x => x * (9 / 10 / absPeak m)))) := by
        unfold normalize_audio
        rw [if_pos hne, if_pos hp, normalize_body_eq]
      set m1 := m.map (fun r => r.map (fun x => x * (9 / 10 / absPeak m))) with hm1
      have hne1 : hasEntry m1 = true := by rw [hm1, hasEntry_map]; exact hne
      have hp1 : absPeak m1 = 9 / 10 := by
        rw [hm1, absPeak_scale m (9 / 10 / absPeak m) (div_nonneg (by norm_num) (absPeak_nonneg m)),
          mul_comm, div_mul_cancel₀ _ (ne_of_gt hp)]
      have hid : m1.map (fun r => r.map (fun x => x / absPeak m1 * (9 / 10))) = m1 := by
        rw [hp1]
        have hfn : (fun x : ℚ => x / (9 / 10) * (9 / 10)) = fun x : ℚ => x := by
          funext x
          exact div_mul_cancel₀ x (by norm_num)
        rw [hfn]
        simp
      rw [heq, Option.some_bind]
      unfold normalize_audio
      rw [if_pos hne1, if_pos (hp1 ▸ (by norm_num : (0 : ℚ) < 9 / 10)), hid]
    · have heq : normalize_audio m = some m := by
        unfold normalize_audio
        rw [if_pos hne, if_neg hp]
      rw [heq, Option.some_bind, heq]
  · have heq : normalize_audio m = none := by
      unfold normalize_audio
      rw [if_neg hne]
    rw [heq, Option.none_bind]

theorem callback_full (s : Session) (a : List (List ℚ)) (F : Nat)
    (ha : s.audio = some a) (h2 : a.length = 2) (hp : s.playing = true)
    (hle : s.cursor + F ≤ ncols a) :
    audio_callback F s =
      some ({ s with cursor := s.cursor + F }, transposeR (sliceCols a s.cursor F)) := by
  have hane : a ≠ [] := by
    intro hc
    rw [hc] at h2
    exact absurd h2 (by decide)
  have hk : min (s.cursor + F) (ncols a) - s.cursor = F := by omega
  have hcol : ncols (sliceCols a s.cursor F) = F := by
    rw [ncols_sliceCols a _ _ hane]
    omega
  unfold audio_callback
  rw [ha]
  simp only [hp, if_true, chunk_eq s a F ha h2, hk]
  rw [if_neg (by omega : ¬ ncols (sliceCols a s.cursor F) < F)]

theorem callback_wrap (s : Session) (a : List (List ℚ)) (F : Nat)
    (ha : s.audio = some a) (h2 : a.length = 2) (hp : s.playing = true)
    (hl : s.looping = true) (hgt : ncols a < s.cursor + F) (hc : s.cursor ≤ ncols a)
    (hrem : s.cursor + F - ncols a ≤ ncols a) :
    audio_callback F s =
      some ({ s with cursor := s.cursor + F - ncols a },
        transposeR (sliceCols a s.cursor (ncols a - s.cursor)) ++
          transposeR (sliceCols a 0 (s.cursor + F - ncols a))) := by
  have hane : a ≠ [] := by
    intro hcn
    rw [hcn] at h2
    exact absurd h2 (by decide)
  have hk : min (s.cursor + F) (ncols a) - s.cursor = ncols a - s.cursor := by omega
  have hcol : ncols (sliceCols a s.cursor (ncols a - s.cursor)) = ncols a - s.cursor := by
    rw [ncols_sliceCols a _ _ hane]
    omega
  have hcol0 : ncols (sliceCols a 0 (s.cursor + F - ncols a)) = s.cursor + F - ncols a := by
    rw [ncols_sliceCols a _ _ hane]
    omega
  have hchunk0 : get_current_audio_chunk
      { audio := some a, cursor := 0, playing := true, looping := true, stream := s.stream }
      (F - ncols (sliceCols a s.cursor (ncols a - s.cursor))) =
      some (sliceCols a 0 (s.cursor + F - ncols a)) := by
    rw [chunk_eq _ a _ rfl h2, hcol]
    show some (sliceCols a 0 (min (0 + (F - (ncols a - s.cursor))) (ncols a) - 0)) = _
    have harg : min (0 + (F - (ncols a - s.cursor))) (ncols a) - 0 =
        s.cursor + F - ncols a := by omega
    rw [harg]
  have hif : ncols (sliceCols a 0 (s.cursor + F - ncols a)) =
      F - ncols (sliceCols a s.cursor (ncols a - s.cursor)) := by
    rw [hcol0, hcol]
    omega
  have hcur : F - ncols (sliceCols a s.cursor (ncols a - s.cursor)) =
      s.cursor + F - ncols a := by
    rw [hcol]
    omega
  unfold audio_callback
  rw [ha]
  simp only [hp, if_true, chunk_eq s a F ha h2, hk]
  rw [if_pos (by omega : ncols (sliceCols a s.cursor (ncols a - s.cursor)) < F)]
  simp only [hl, if_true, hchunk0]
  rw [if_pos hif, hcur]

theorem callback_crash (s : Session) (a : List (List ℚ)) (F : Nat)
    (ha : s.audio = some a) (h2 : a.length = 2) (hp : s.playing = true)
    (hl : s.looping = true) (hgt : ncols a < s.cursor + F) (hc : s.cursor ≤ ncols a)
    (hbig : ncols a < s.cursor + F - ncols a) (hne1 : ncols a ≠ 1) :
    audio_callback F s = none := by
  have hane : a ≠ [] := by
    intro hcn
    rw [hcn] at h2
    exact absurd h2 (by decide)
  have hk : min (s.cursor + F) (ncols a) - s.cursor = ncols a - s.cursor := by omega
  have hcol : ncols (sliceCols a s.cursor (ncols a - s.cursor)) = ncols a - s.cursor := by
    rw [ncols_sliceCols a _ _ hane]
    omega
  have hcol0 : ncols (sliceCols a 0 (ncols a)) = ncols a := by
    rw [ncols_sliceCols a _ _ hane]
    omega
  have hchunk0 : get_current_audio_chunk
      { audio := some a, cursor := 0, playing := true, looping := true, stream := s.stream }
      (F - ncols (sliceCols a s.cursor (ncols a - s.cursor))) =
      some (sliceCols a 0 (ncols a)) := by
    rw [chunk_eq _ a _ rfl h2, hcol]
    show some (sliceCols a 0 (min (0 + (F - (ncols a - s.cursor))) (ncols a) - 0)) = _
    have harg : min (0 + (F - (ncols a - s.cursor))) (ncols a) - 0 = ncols a := by omega
    rw [harg]
  have hif : ¬ ncols (sliceCols a 0 (ncols a)) =
      F - ncols (sliceCols a s.cursor (ncols a - s.cursor)) := by
    rw [hcol0, hcol]
    omega
  have hif1 : ¬ ncols (sliceCols a 0 (ncols a)) = 1 := by
    rw [hcol0]
    exact hne1
  unfold audio_callback
  rw [ha]
  simp only [hp, if_true, chunk_eq s a F ha h2, hk]
  rw [if_pos (by omega : ncols (sliceCols a s.cursor (ncols a - s.cursor)) < F)]
  simp only [hl, if_true, hchunk0]
  rw [if_neg hif, if_neg hif1]

theorem callback_stop (s : Session) (a : List (List ℚ)) (F : Nat)
    (ha : s.audio = some a) (h2 : a.length = 2) (hp : s.playing = true)
    (hl : s.looping = false) (hgt : ncols a < s.cursor + F) (hc : s.cursor ≤ ncols a) :
    audio_callback F s =
      some (stop_playback s,
        transposeR (sliceCols a s.cursor (ncols a - s.cursor)) ++
          List.replicate (F - (ncols a - s.cursor)) (List.replicate a.length 0)) := by
  have hane : a ≠ [] := by
    intro hcn
    rw [hcn] at h2
    exact absurd h2 (by decide)
  have hk : min (s.cursor + F) (ncols a) - s.cursor = ncols a - s.cursor := by omega
  have hcol : ncols (sliceCols a s.cursor (ncols a - s.cursor)) = ncols a - s.cursor := by
    rw [ncols_sliceCols a _ _ hane]
    omega
  unfold audio_callback
  rw [ha]
  simp only [hp, if_true, chunk_eq s a F ha h2, hk]
  rw [if_pos (by omega : ncols (sliceCols a s.cursor (ncols a - s.cursor)) < F)]
  simp only [hl, if_false, Bool.false_eq_true]
  rw [hcol]

/-- Claim C2 counterexample: on a 4-sample looping buffer with cursor 2 and
    frame count 2, the callback completes writing 2 frames but leaves the cursor
    at 4, which differs from the claimed (2 + 2) mod 4 = 0. -/
theorem audio_callback_mod_counterexample :
    (audio_callback 2 loopSession).map (fun r => r.1.cursor) = some 4 ∧
    (2 + 2) % 4 = 0 ∧
    (audio_callback 2 loopSession).map (fun r => r.1.cursor) ≠ some ((2 + 2) % 4) := by
  refine ⟨by decide, by decide, ?_⟩
  intro h
  rw [show (audio_callback 2 loopSession).map (fun r => r.1.cursor) = some 4 from by decide]
    at h
  simp at h

/-- Claim C2 (amended): during looped playback over a 2-channel rectangular
    buffer of per-channel length L, with 0 < F ≤ L and cursor ≤ L, every
    callback invocation completes, writes exactly F frames, and moves the cursor
    to cursor + F when that is at most L and to cursor + F - L otherwise (this
    equals (cursor + F) mod L except when L divides cursor + F, where the cursor
    is left at L and wraps to 0 only on the next invocation). -/
theorem audio_callback_loop_step (s : Session) (a : List (List ℚ)) (F : Nat)
    (ha : s.audio = some a) (h2 : a.length = 2) (_hr : Rect a)
    (hp : s.playing = true) (hl : s.looping = true)
    (hc : s.cursor ≤ ncols a) (_hF0 : 0 < F) (hFL : F ≤ ncols a) :
    ∃ r, audio_callback F s = some r ∧ r.2.length = F ∧
      r.1.cursor = (if s.cursor + F ≤ ncols a then s.cursor + F
        else s.cursor + F - ncols a) := by
  have hane : a ≠ [] := by
    intro hcn
    rw [hcn] at h2
    exact absurd h2 (by decide)
  by_cases hcase : s.cursor + F ≤ ncols a
  · rw [callback_full s a F ha h2 hp hcase]
    refine ⟨_, rfl, ?_, by rw [if_pos hcase]⟩
    rw [length_transposeR, ncols_sliceCols a _ _ hane]
    omega
  · push_neg at hcase
    have hrem : s.cursor + F - ncols a ≤ ncols a := by omega
    rw [callback_wrap s a F ha h2 hp hl hcase hc hrem]
    refine ⟨_, rfl, ?_, by rw [if_neg (by omega)]⟩
    rw [List.length_append, length_transposeR, length_transposeR,
      ncols_sliceCols a _ _ hane, ncols_sliceCols a _ _ hane]
    omega

theorem audio_callback_loop_step_witness :
    ∃ r, audio_callback 2 loopSession3 = some r ∧ r.2.length = 2 ∧
      r.1.cursor = (if loopSession3.cursor + 2 ≤ ncols [[(1 : ℚ), 2, 3, 4], [5, 6, 7, 8]]
        then loopSession3.cursor + 2
        else loopSession3.cursor + 2 - ncols [[(1 : ℚ), 2, 3, 4], [5, 6, 7, 8]]) :=
  audio_callback_loop_step loopSession3 [[(1 : ℚ), 2, 3, 4], [5, 6, 7, 8]] 2
    rfl rfl (by decide) rfl rfl (by decide) (by decide) (by decide)

/-- Claim C8 counterexample: on a looping session over a 1-sample-per-channel
    buffer with the cursor at the end, a callback requesting 2 frames completes
    (the single wrap frame broadcasts across the shortfall) and leaves the
    cursor at 2, above the buffer length 1: the invariant is not preserved by
    the looping wrap. -/
theorem cursor_invariant_broken_counterexample :
    SessionInv tinySession ∧ sessionWF tinySession = true ∧
    (audio_callback 2 tinySession).map (fun r => r.1.cursor) = some 2 ∧
    sessionLen tinySession = 1 ∧
    callbackKeeps 2 tinySession = false := by decide

/-- Claim C8 (amended): the cursor invariant 0 <= cursor <= buffer.length is
    established by set_audio_data (cursor = 0) and preserved by
    seek_to_position (clamped mapping, given a positive drawable width); it is
    preserved by every completing invocation of the audio callback (in-buffer
    advance, end-of-buffer stop, and looping wrap) on a well-formed session
    whose buffer does not have exactly one sample per channel -- for a 1-sample
    buffer a looping callback with 2 or more frames completes via numpy
    broadcasting of the single wrap frame and leaves the cursor above the
    buffer length. -/
theorem cursor_invariant_preserved (s : Session) (a2 : Option (List (List ℚ)))
    (w x : ℚ) (F : Nat) (hw : 0 < w - 2 * WAVEFORM_PADDING)
    (hwf : sessionWF s = true) (hinv : SessionInv s) (hL1 : sessionLen s ≠ 1) :
    SessionInv (set_audio_data a2 s) ∧ SessionInv (seek_to_position w x s) ∧
    callbackKeeps F s = true := by
  refine ⟨Nat.zero_le _, ?_, ?_⟩
  · cases hau : s.audio with
    | none =>
      have hseek : seek_to_position w x s = s := by
        unfold seek_to_position
        rw [hau]
      rw [hseek]
      exact hinv
    | some a =>
      have hseek : seek_to_position w x s = { s with cursor :=
          (seekIndex (w - 2 * WAVEFORM_PADDING) (ncols a) (x - WAVEFORM_PADDING)).toNat } := by
        unfold seek_to_position
        rw [hau]
      rw [hseek]
      have hsl : sessionLen ({ s with cursor :=
          (seekIndex (w - 2 * WAVEFORM_PADDING) (ncols a) (x - WAVEFORM_PADDING)).toNat } :
            Session) = ncols a := by
        unfold sessionLen
        rw [show ({ s with cursor :=
          (seekIndex (w - 2 * WAVEFORM_PADDING) (ncols a) (x - WAVEFORM_PADDING)).toNat } :
            Session).audio = s.audio from rfl, hau]
      show (seekIndex (w - 2 * WAVEFORM_PADDING) (ncols a) (x - WAVEFORM_PADDING)).toNat ≤
        sessionLen ({ s with cursor :=
          (seekIndex (w - 2 * WAVEFORM_PADDING) (ncols a) (x - WAVEFORM_PADDING)).toNat } :
            Session)
      rw [hsl]
      exact Int.toNat_le.mpr (seekIndex_le _ _ _ hw)
  · unfold callbackKeeps
    have hslen : sessionLen s = sessionLen s := rfl
    cases hau : s.audio with
    | none =>
      have hcb : audio_callback F s = some (s, []) := by
        unfold audio_callback
        rw [hau]
      rw [hcb]
      exact decide_eq_true hinv
    | some a =>
      have hwf2 : a.length = 2 ∧ Rect a := by
        unfold sessionWF at hwf
        rw [hau] at hwf
        simp only [Bool.and_eq_true, beq_iff_eq, decide_eq_true_eq] at hwf
        exact hwf
      obtain ⟨h2, _hr⟩ := hwf2
      have hlen : sessionLen s = ncols a := by
        unfold sessionLen
        rw [hau]
      have hc : s.cursor ≤ ncols a := by
        rw [← hlen]
        exact hinv
      by_cases hpl : s.playing = true
      · by_cases hcase : s.cursor + F ≤ ncols a
        · rw [callback_full s a F hau h2 hpl hcase]
          refine decide_eq_true ?_
          show ({ s with cursor := s.cursor + F } : Session).cursor ≤
            sessionLen { s with cursor := s.cursor + F }
          have : sessionLen ({ s with cursor := s.cursor + F } : Session) = ncols a := by
            unfold sessionLen
            rw [show ({ s with cursor := s.cursor + F } : Session).audio = s.audio from rfl,
              hau]
          rw [this]
          exact hcase
        · push_neg at hcase
          by_cases hloop : s.looping = true
          · by_cases hrem : s.cursor + F - ncols a ≤ ncols a
            · rw [callback_wrap s a F hau h2 hpl hloop hcase hc hrem]
              refine decide_eq_true ?_
              show ({ s with cursor := s.cursor + F - ncols a } : Session).cursor ≤
                sessionLen { s with cursor := s.cursor + F - ncols a }
              have : sessionLen ({ s with cursor := s.cursor + F - ncols a } : Session) =
                  ncols a := by
                unfold sessionLen
                rw [show ({ s with cursor := s.cursor + F - ncols a } : Session).audio =
                  s.audio from rfl, hau]
              rw [this]
              exact hrem
            · push_neg at hrem
              have hne1 : ncols a ≠ 1 := by
                rw [← hlen]
                exact hL1
              rw [callback_crash s a F hau h2 hpl hloop hcase hc hrem hne1]
          · have hloopf : s.looping = false := by
              revert hloop
              cases s.looping <;> simp
            rw [callback_stop s a F hau h2 hpl hloopf hcase hc]
            refine decide_eq_true ?_
            show (stop_playback s).cursor ≤ sessionLen (stop_playback s)
            have hsp : (stop_playback s).cursor = s.cursor ∧
                (stop_playback s).audio = s.audio := by
              unfold stop_playback
              split_ifs
              all_goals exact ⟨rfl, rfl⟩
            have : sessionLen (stop_playback s) = ncols a := by
              unfold sessionLen
              rw [hsp.2, hau]
            rw [this, hsp.1]
            exact hc
      · have hplf : s.playing = false := by
          revert hpl
          cases s.playing <;> simp
        have hcb : audio_callback F s = some (s, []) := by
          unfold audio_callback
          rw [hau]
          simp only [hplf, Bool.false_eq_true, if_false]
        rw [hcb]
        exact decide_eq_true hinv

theorem cursor_invariant_preserved_witness :
    SessionInv (set_audio_data (some [[1], [1]]) loopSession) ∧
    SessionInv (seek_to_position 100 20 loopSession) ∧
    callbackKeeps 2 loopSession = true :=
  cursor_invariant_preserved loopSession (some [[1], [1]]) 100 20 2
    (by norm_num [WAVEFORM_PADDING]) (by decide) (by decide) (by decide)

end Sprout
